import Mathlib

/-!
Verification of the chunked, checkpointed chat-analysis pipeline in
`src/chat_analyzer.py` (function `analyze_chat_history`).

The Python source is shallowly embedded as executable Lean definitions:

* `Message`, `Analysis`, `AnalysisState` mirror the JSON records and the
  mutable variables of the run loop (`main_branch`, `summary_log`,
  `debugging_branches`, `debugging_session_count`, `is_currently_debugging`).
* `processChunk` embeds the per-chunk state update (lines 102-132).
* `chunkSeq` embeds the chunking loop header (lines 61-64).
* `cleanResponse` embeds the response cleaning (line 99); Python strings are
  modelled as `List Char` (a Python `str` is a sequence of code points).
* `analyzeChatHistory` / `runLoop` embed the whole run including checkpoint
  file effects (as an explicit `FileOp` trace) and the error paths of the
  `try/except` block (lines 95-151).

Python dicts with string keys are modelled as association lists in insertion
order with unique keys (`dictEnsure`, `dictAppend`, `dictLookup`); Python sets
are modelled by the underlying id list, since the code only uses membership
and truthiness, both invariant under deduplication.
-/

namespace ChatAnalyzer

/-- A chat message: a required unique `id` plus arbitrary other fields,
collapsed into an opaque `body` (the code only ever reads `message['id']`
and moves whole messages around). -/
structure Message where
  id : String
  body : String
deriving DecidableEq

/-- One entry of the verdict's `chunk_summary` list. -/
structure SummaryEntry where
  id : String
  summary : String
deriving DecidableEq

/-- An element of `main_branch`: either an input message or the synthetic
summary dict `{"type": "summary", "content": ...}` appended at line 119. -/
inductive MainEntry where
  | msg (m : Message)
  | marker (content : String)
deriving DecidableEq

/-- A raw element of the verdict's `debugging_message_ids` list, before
normalization (lines 104-113): a plain string, a dict carrying an `id`
field, a dict without one, or a value of any other type. -/
inductive IdItem where
  | str (s : String)
  | obj (id : String)
  | objNoId
  | other
deriving DecidableEq

/-- The parsed classifier verdict, with the fields the loop reads via
`analysis.get(...)` (lines 101-119).  `debugging_summary = none` models the
key being absent, in which case line 119 falls back to a generic text. -/
structure Analysis where
  is_debugging : Bool
  debugging_summary : Option String
  debugging_message_ids : List IdItem
  chunk_summary : List SummaryEntry
deriving DecidableEq

/-- The five mutable state variables of the run loop (line 45). -/
structure AnalysisState where
  main_branch : List MainEntry
  summary_log : List SummaryEntry
  debugging_branches : List (String × List Message)
  debugging_session_count : Nat
  is_currently_debugging : Bool
deriving DecidableEq

/-- The fresh initial state of line 45:
`[], [], {}, 0, False`. -/
def initState : AnalysisState :=
  { main_branch := []
    summary_log := []
    debugging_branches := []
    debugging_session_count := 0
    is_currently_debugging := false }

/-! ## Dict operations (Python dict as association list, unique keys) -/

/-- Python `key in dict`. -/
def dictHas (d : List (String × List Message)) (k : String) : Bool :=
  d.any (fun kv => kv.1 == k)

/-- Python `dict[key]` lookup as an option (first matching key). -/
def dictLookup (d : List (String × List Message)) (k : String) :
    Option (List Message) :=
  match d with
  | [] => none
  | kv :: rest => if kv.1 = k then some kv.2 else dictLookup rest k

/-- Line 122-123: `if session_key not in debugging_branches:
debugging_branches[session_key] = []`.  A missing key is inserted at the
end, matching Python dict insertion order. -/
def dictEnsure (d : List (String × List Message)) (k : String) :
    List (String × List Message) :=
  if dictHas d k then d else d ++ [(k, [])]

/-- Line 127: `debugging_branches[session_key].append(message)`.  Appends to
the entry with key `k`; a no-op if the key is absent (the code only calls
this after `dictEnsure`). -/
def dictAppend (d : List (String × List Message)) (k : String) (m : Message) :
    List (String × List Message) :=
  match d with
  | [] => []
  | kv :: rest =>
      if kv.1 = k then (kv.1, kv.2 ++ [m]) :: rest
      else kv :: dictAppend rest k m

/-- Repeated `dictAppend`, used to state the closed form of the per-message
attribution loop. -/
def dictAppendList (d : List (String × List Message)) (k : String)
    (ms : List Message) : List (String × List Message) :=
  ms.foldl (fun d m => dictAppend d k m) d

/-! ## Verdict id normalization and the session state machine -/

/-- Lines 104-113: keep dict items carrying an `id` (taking that id) and
plain strings; drop everything else. -/
def normalizeIds : List IdItem → List String
  | [] => []
  | IdItem.str s :: rest => s :: normalizeIds rest
  | IdItem.obj i :: rest => i :: normalizeIds rest
  | IdItem.objNoId :: rest => normalizeIds rest
  | IdItem.other :: rest => normalizeIds rest

/-- The fallback summary text of line 119. -/
def fallbackSummary : String := "A debugging session occurred."

/-- Line 121: `session_key = f"debug_session_{debugging_session_count}"`. -/
def sessionKey (n : Nat) : String := "debug_session_" ++ toString n

/-- The per-message attribution loop of lines 125-129, acting on the pair
(debugging_branches, main_branch). -/
def attributeStep (ids : List String) (key : String)
    (bm : List (String × List Message) × List MainEntry) (message : Message) :
    List (String × List Message) × List MainEntry :=
  if ids.contains message.id then
    (dictAppend bm.1 key message, bm.2)
  else
    (bm.1, bm.2 ++ [MainEntry.msg message])

/-- The per-chunk state update of `analyze_chat_history`, lines 102-132:
extend `summary_log`, normalize the id list, then either take the debugging
path (lines 115-129) when the normalized set is non-empty, or close any open
session and send the whole chunk to `main_branch` (lines 130-132).
Set truthiness and set membership of the Python code coincide with list
non-emptiness and list membership of the normalized id list. -/
def processChunk (s : AnalysisState) (chunk : List Message)
    (analysis : Analysis) : AnalysisState :=
  let summary_log := s.summary_log ++ analysis.chunk_summary
  let debugging_message_ids := normalizeIds analysis.debugging_message_ids
  if debugging_message_ids.isEmpty then
    { main_branch := s.main_branch ++ chunk.map MainEntry.msg
      summary_log := summary_log
      debugging_branches := s.debugging_branches
      debugging_session_count := s.debugging_session_count
      is_currently_debugging := false }
  else
    let debugging_session_count :=
      if s.is_currently_debugging then s.debugging_session_count
      else s.debugging_session_count + 1
    let main0 :=
      if s.is_currently_debugging then s.main_branch
      else s.main_branch ++
        [MainEntry.marker (analysis.debugging_summary.getD fallbackSummary)]
    let key := sessionKey debugging_session_count
    let branches0 := dictEnsure s.debugging_branches key
    let bm := chunk.foldl (attributeStep debugging_message_ids key)
      (branches0, main0)
    { main_branch := bm.2
      summary_log := summary_log
      debugging_branches := bm.1
      debugging_session_count := debugging_session_count
      is_currently_debugging := true }

/-! ## Chunker -/

/-- Line 53: `total_chunks = (len(messages) + chunk_size - 1) // chunk_size`. -/
def totalChunks (len W : Nat) : Nat := (len + W - 1) / W

/-- Line 64: `chunk = messages[i:i + chunk_size]`. -/
def chunkSlice (messages : List Message) (i W : Nat) : List Message :=
  (messages.drop i).take W

/-- The chunking loop of lines 61-64:
`for i in range(start*W, end*W, W): if i >= len(messages): break; ...`,
collecting the produced chunks.  `i` is the current message offset and `n`
the number of remaining loop iterations (`range` with step `W ≥ 1` from
`s*W` to `e*W` yields `e - s` values). -/
def chunkSeq (messages : List Message) (W : Nat) : Nat → Nat → List (List Message)
  | _, 0 => []
  | i, n + 1 =>
      if messages.length ≤ i then []
      else chunkSlice messages i W :: chunkSeq messages W (i + W) n

/-- All chunks of an uncapped run starting at chunk 0. -/
def chunkAll (messages : List Message) (W : Nat) : List (List Message) :=
  chunkSeq messages W 0 (totalChunks messages.length W)

/-! ## Response cleaning (line 99)

Python strings are modelled as `List Char`; `str.strip`, `str.removeprefix`
and `str.removesuffix` are embedded below.  (Python strips the Unicode
whitespace characters; `Char.isWhitespace` agrees on the ASCII whitespace
relevant here.) -/

/-- Python `str.strip()`: drop leading and trailing whitespace. -/
def pyStrip (s : List Char) : List Char :=
  ((s.dropWhile Char.isWhitespace).reverse.dropWhile Char.isWhitespace).reverse

/-- Python `str.removeprefix(p)`: drop `p` from the front if present,
otherwise return the string unchanged. -/
def pyRemovePre (p s : List Char) : List Char :=
  if p.isPrefixOf s then s.drop p.length else s

/-- Python `str.removesuffix(p)`: drop `p` from the end if present,
otherwise return the string unchanged. -/
def pyRemoveSuf (p s : List Char) : List Char :=
  if p.isSuffixOf s then s.take (s.length - p.length) else s

/-- The opening fence marker the code strips: the literal "```json". -/
def fenceJson : List Char := ("```json" : String).data

/-- The closing fence marker the code strips: the literal "```". -/
def fenceEnd : List Char := ("```" : String).data

/-- Line 99:
`cleaned_text = response.text.strip().removeprefix("```json").removesuffix("```")`. -/
def cleanResponse (text : List Char) : List Char :=
  pyRemoveSuf fenceEnd (pyRemovePre fenceJson (pyStrip text))

/-! ## Checkpoint records, file effects, and the full run loop -/

/-- The checkpoint file's contents: the six serialized fields written by the
dict literal of lines 137-142 and read back by lines 37-42. -/
structure Checkpoint where
  main_branch : List MainEntry
  summary_log : List SummaryEntry
  debugging_branches : List (String × List Message)
  debugging_session_count : Nat
  is_currently_debugging : Bool
  last_processed_chunk : Nat
deriving DecidableEq

/-- The checkpoint contents the save block of lines 136-143 describes for a
state `s` after chunk `current_chunk_index`.  In the source this dict
literal is wrapped in a second pair of braces, `checkpoint_data = {{...}}`,
which makes it a set containing a dict; constructing it raises
`TypeError: unhashable type` before anything reaches the file (see
`runLoop`).  This definition records the intended field contents. -/
def mkCheckpointData (s : AnalysisState) (current_chunk_index : Nat) :
    Checkpoint :=
  { main_branch := s.main_branch
    summary_log := s.summary_log
    debugging_branches := s.debugging_branches
    debugging_session_count := s.debugging_session_count
    is_currently_debugging := s.is_currently_debugging
    last_processed_chunk := current_chunk_index }

/-- Lines 37-41: restore the five loop variables from a checkpoint. -/
def loadCheckpoint (c : Checkpoint) : AnalysisState :=
  { main_branch := c.main_branch
    summary_log := c.summary_log
    debugging_branches := c.debugging_branches
    debugging_session_count := c.debugging_session_count
    is_currently_debugging := c.is_currently_debugging }

/-- Line 42: `start_chunk_index = checkpoint_data.get('last_processed_chunk', -1) + 1`. -/
def resumeIndex (c : Checkpoint) : Nat := c.last_processed_chunk + 1

/-- Observable operations on the checkpoint file and the output directory. -/
inductive FileOp where
  | readCheckpoint
  | writeCheckpoint
  | deleteCheckpoint
  | writeOutputs
deriving DecidableEq

/-- How a run ends: the code after the loop ran (`completed`); the except
handler of lines 148-151 printed the chunk index and a raw response text and
returned (`reported`); or the handler itself crashed with
`UnboundLocalError` because `response` was never assigned
(`handlerCrashed`). -/
inductive Outcome where
  | completed
  | reported (chunkIndex : Nat) (raw : List Char)
  | handlerCrashed (chunkIndex : Nat)
deriving DecidableEq

/-- The observable result of a run: its outcome, the trace of file
operations, and the final values of the loop state variables. -/
structure RunResult where
  outcome : Outcome
  ops : List FileOp
  state : AnalysisState
deriving DecidableEq

/-- Lines 153-168: write the output files, and delete the checkpoint when it
exists and the run is a full (non-limited) one. -/
def finalize (is_limited_run checkpointExists : Bool) (s : AnalysisState)
    (ops : List FileOp) : RunResult :=
  { outcome := Outcome.completed
    ops := ops ++ [FileOp.writeOutputs] ++
      (if checkpointExists && !is_limited_run then [FileOp.deleteCheckpoint]
       else [])
    state := s }

/-- The `for` loop of lines 61-151.  `classify idx` is the external
`model.generate_content` call for chunk `idx` (`Except.error` is a transport
failure); `loads` stands for `json.loads` plus field extraction on the
cleaned text (`none` is a parse failure).  `fuel` is the number of remaining
`range` values and `lastResponse` the current value of the Python local
`response`, which survives across iterations.

Error paths, mirroring lines 148-151: on any exception the handler prints
the chunk index and then evaluates `response.text`.  If `classify` failed,
`response` was not assigned this iteration, so the handler reports the
previous iteration's response, or raises `UnboundLocalError` when there is
none.  On a parse failure the current response is reported.  On a full
(non-limited) run, a successfully processed chunk reaches the save block of
lines 135-145, whose `checkpoint_data = {{...}}` set-of-dict literal raises
`TypeError`; the handler catches it, reports the current response, and the
function returns — so no checkpoint is ever written. -/
def runLoop (messages : List Message) (W : Nat)
    (is_limited_run checkpointExists : Bool)
    (classify : Nat → Except Unit (List Char))
    (loads : List Char → Option Analysis) :
    Nat → Option (List Char) → AnalysisState → List FileOp → Nat → RunResult
  | 0, _, s, ops, _ => finalize is_limited_run checkpointExists s ops
  | fuel + 1, lastResponse, s, ops, idx =>
      if messages.length ≤ idx * W then
        finalize is_limited_run checkpointExists s ops
      else
        match classify idx with
        | Except.error _ =>
            match lastResponse with
            | none => { outcome := Outcome.handlerCrashed idx, ops := ops, state := s }
            | some r => { outcome := Outcome.reported idx r, ops := ops, state := s }
        | Except.ok text =>
            match loads (cleanResponse text) with
            | none => { outcome := Outcome.reported idx text, ops := ops, state := s }
            | some analysis =>
                let s2 := processChunk s (chunkSlice messages (idx * W) W) analysis
                if is_limited_run then
                  runLoop messages W is_limited_run checkpointExists classify
                    loads fuel (some text) s2 ops (idx + 1)
                else
                  { outcome := Outcome.reported idx text, ops := ops, state := s2 }

/-- The whole of `analyze_chat_history` after input loading (lines 28-168).
`checkpoint` is the checkpoint file's contents, or `none` when the file does
not exist.  `start_chunk` is the CLI's 1-based starting chunk (the model
assumes the documented convention `start_chunk ≥ 1`). -/
def analyzeChatHistory (messages : List Message) (chunk_size : Nat)
    (start_chunk num_chunks : Option Nat) (checkpoint : Option Checkpoint)
    (classify : Nat → Except Unit (List Char))
    (loads : List Char → Option Analysis) : RunResult :=
  let is_limited_run := start_chunk.isSome || num_chunks.isSome
  let init : AnalysisState × Nat × List FileOp :=
    match checkpoint, is_limited_run with
    | some c, false => (loadCheckpoint c, resumeIndex c, [FileOp.readCheckpoint])
    | _, _ =>
        (initState,
         (match start_chunk with | some sc => sc - 1 | none => 0),
         [])
  let start_chunk_index := init.2.1
  let total_chunks := totalChunks messages.length chunk_size
  let end_chunk_index :=
    match num_chunks with
    | some n => min (start_chunk_index + n) total_chunks
    | none => total_chunks
  runLoop messages chunk_size is_limited_run checkpoint.isSome classify loads
    (end_chunk_index - start_chunk_index) none init.1 init.2.2
    start_chunk_index

/-! ## The pure chunk fold

The state-machine part of the loop in isolation: fold `processChunk` over
the chunks from chunk index `idx`, with the verdict for chunk `i` given by
`analyses i` (the classifier is a function of the chunk, and the chunk is a
function of its index). -/

/-- Fold the per-chunk update over `n` chunk indices starting at `idx`,
with the same `i >= len(messages)` break as the loop. -/
def foldChunks (analyses : Nat → Analysis) (messages : List Message) (W : Nat) :
    AnalysisState → Nat → Nat → AnalysisState
  | s, _, 0 => s
  | s, idx, n + 1 =>
      if messages.length ≤ idx * W then s
      else
        foldChunks analyses messages W
          (processChunk s (chunkSlice messages (idx * W) W) (analyses idx))
          (idx + 1) n

/-- A full uninterrupted pass over all chunks from the fresh state. -/
def runAll (analyses : Nat → Analysis) (messages : List Message) (W : Nat) :
    AnalysisState :=
  foldChunks analyses messages W initState 0 (totalChunks messages.length W)

/-! ## Observation helpers used in the claim statements -/

/-- The Messages of a `main_branch`, markers removed. -/
def mainMessages (l : List MainEntry) : List Message :=
  l.filterMap (fun e => match e with
    | MainEntry.msg m => some m
    | MainEntry.marker _ => none)

/-- All messages of all debugging branches, in branch insertion order. -/
def branchesJoin (d : List (String × List Message)) : List Message :=
  (d.map Prod.snd).flatten

/-- The number of SummaryMarkers in a `main_branch`. -/
def markerCount (l : List MainEntry) : Nat :=
  (l.filter (fun e => match e with
    | MainEntry.marker _ => true
    | MainEntry.msg _ => false)).length

/-- Checkpoint-file operations (everything except writing the outputs). -/
def isCheckpointOp : FileOp → Bool
  | FileOp.writeOutputs => false
  | _ => true

/-! ## Smoke tests against the spec's worked examples -/

/-- Spec section 8, Example 2: ids 1..5, window 5,
`debugging_message_ids = ["2","3"]`, summary "null pointer fix". -/
example :
    let ms : List Message :=
      [⟨"1", "a"⟩, ⟨"2", "b"⟩, ⟨"3", "c"⟩, ⟨"4", "d"⟩, ⟨"5", "e"⟩]
    let a : Analysis :=
      ⟨true, some ("null pointer fix"), [IdItem.str ("2"), IdItem.str ("3")], []⟩
    processChunk initState ms a =
      { main_branch := [MainEntry.marker ("null pointer fix"),
          MainEntry.msg ⟨"1", "a"⟩, MainEntry.msg ⟨"4", "d"⟩,
          MainEntry.msg ⟨"5", "e"⟩]
        summary_log := []
        debugging_branches := [("debug_session_1",
          [⟨"2", "b"⟩, ⟨"3", "c"⟩])]
        debugging_session_count := 1
        is_currently_debugging := true } := by decide

/-- Spec section 8, Example 1: one chunk with an empty id list leaves all
messages on the main branch, session count 0. -/
example :
    let ms : List Message := [⟨"1", "a"⟩, ⟨"2", "b"⟩]
    let a : Analysis := ⟨false, none, [], []⟩
    processChunk initState ms a =
      { main_branch := [MainEntry.msg ⟨"1", "a"⟩, MainEntry.msg ⟨"2", "b"⟩]
        summary_log := []
        debugging_branches := []
        debugging_session_count := 0
        is_currently_debugging := false } := by decide

example : chunkAll [⟨"1", "a"⟩, ⟨"2", "b"⟩, ⟨"3", "c"⟩] 2 =
    [[⟨"1", "a"⟩, ⟨"2", "b"⟩], [⟨"3", "c"⟩]] := by decide

example : cleanResponse ("```json[1]```" : String).data = ("[1]" : String).data := by
  decide

/-! ## Lemmas about the dict model -/

theorem dictHas_eq_isSome (d : List (String × List Message)) (k : String) :
    dictHas d k = (dictLookup d k).isSome := by
  induction d with
  | nil => rfl
  | cons kv rest ih =>
      by_cases h : kv.1 = k
      · simp [dictHas, dictLookup, h]
      · have hb : (kv.1 == k) = false := by simp [h]
        simp only [dictHas] at ih
        simp [dictHas, dictLookup, h, hb, ih]

theorem dictLookup_append_missing (d : List (String × List Message))
    (k : String) (h : dictLookup d k = none) :
    dictLookup (d ++ [(k, [])]) k = some [] := by
  induction d with
  | nil => simp [dictLookup]
  | cons kv rest ih =>
      by_cases hk : kv.1 = k
      · simp [dictLookup, hk] at h
      · simp only [List.cons_append, dictLookup, if_neg hk] at h ⊢
        exact ih h

theorem dictLookup_append_ne (d : List (String × List Message))
    (k k' : String) (h : k' ≠ k) :
    dictLookup (d ++ [(k, [])]) k' = dictLookup d k' := by
  induction d with
  | nil => simp [dictLookup, Ne.symm h]
  | cons kv rest ih =>
      by_cases hk : kv.1 = k'
      · simp [dictLookup, hk]
      · simp only [List.cons_append, dictLookup, if_neg hk]
        exact ih

theorem dictLookup_dictEnsure_self (d : List (String × List Message))
    (k : String) :
    dictLookup (dictEnsure d k) k = some ((dictLookup d k).getD []) := by
  unfold dictEnsure
  by_cases h : dictHas d k
  · rw [dictHas_eq_isSome] at h
    cases hl : dictLookup d k with
    | none => rw [hl] at h; simp at h
    | some v => simp [dictHas_eq_isSome, hl]
  · have hl : dictLookup d k = none := by
      rw [dictHas_eq_isSome] at h
      cases hl : dictLookup d k with
      | none => rfl
      | some v => rw [hl] at h; simp at h
    simp [h, dictLookup_append_missing d k hl, hl]

theorem dictLookup_dictEnsure_ne (d : List (String × List Message))
    (k k' : String) (h : k' ≠ k) :
    dictLookup (dictEnsure d k) k' = dictLookup d k' := by
  unfold dictEnsure
  by_cases hh : dictHas d k
  · simp [hh]
  · simp [hh, dictLookup_append_ne d k k' h]

theorem dictLookup_dictAppend_self (d : List (String × List Message))
    (k : String) (m : Message) :
    dictLookup (dictAppend d k m) k
      = (dictLookup d k).map (fun v => v ++ [m]) := by
  induction d with
  | nil => rfl
  | cons kv rest ih =>
      by_cases h : kv.1 = k
      · simp [dictAppend, dictLookup, h]
      · simp [dictAppend, dictLookup, h, ih]

theorem dictLookup_dictAppend_ne (d : List (String × List Message))
    (k k' : String) (m : Message) (h : k' ≠ k) :
    dictLookup (dictAppend d k m) k' = dictLookup d k' := by
  induction d with
  | nil => rfl
  | cons kv rest ih =>
      by_cases hk : kv.1 = k
      · have hne : kv.1 ≠ k' := by rw [hk]; exact Ne.symm h
        simp [dictAppend, dictLookup, hk, hne, Ne.symm h]
      · by_cases hk' : kv.1 = k'
        · simp [dictAppend, dictLookup, hk, hk', h]
        · simp [dictAppend, dictLookup, hk, hk', ih]

theorem dictHas_dictAppend (d : List (String × List Message))
    (k k' : String) (m : Message) :
    dictHas (dictAppend d k m) k' = dictHas d k' := by
  induction d with
  | nil => rfl
  | cons kv rest ih =>
      by_cases hk : kv.1 = k
      · simp [dictAppend, dictHas, hk]
      · simp only [dictAppend, if_neg hk, dictHas, List.any_cons]
        simp only [dictHas] at ih
        rw [ih]

theorem dictHas_dictEnsure_self (d : List (String × List Message))
    (k : String) : dictHas (dictEnsure d k) k = true := by
  unfold dictEnsure
  by_cases h : dictHas d k
  · rw [if_pos h]; exact h
  · rw [if_neg h]
    simp only [dictHas, List.any_append, List.any_cons, List.any_nil]
    simp

theorem branchesJoin_dictEnsure (d : List (String × List Message))
    (k : String) : branchesJoin (dictEnsure d k) = branchesJoin d := by
  unfold dictEnsure
  by_cases h : dictHas d k <;> simp [h, branchesJoin]

theorem branchesJoin_dictAppend_perm (d : List (String × List Message))
    (k : String) (m : Message) (h : dictHas d k = true) :
    List.Perm (branchesJoin (dictAppend d k m)) (branchesJoin d ++ [m]) := by
  induction d with
  | nil => simp [dictHas] at h
  | cons kv rest ih =>
      by_cases hk : kv.1 = k
      · simp only [dictAppend, if_pos hk, branchesJoin, List.map_cons,
          List.flatten_cons]
        rw [List.append_assoc, List.append_assoc]
        exact List.perm_append_comm.append_left kv.2
      · have hrest : dictHas rest k = true := by
          have hb : (kv.1 == k) = false := by simp [hk]
          simpa [dictHas, hb] using h
        simp only [dictAppend, if_neg hk, branchesJoin, List.map_cons,
          List.flatten_cons] at ih ⊢
        rw [List.append_assoc]
        exact (ih hrest).append_left kv.2

theorem dictAppendList_cons (d : List (String × List Message)) (k : String)
    (m : Message) (ms : List Message) :
    dictAppendList d k (m :: ms) = dictAppendList (dictAppend d k m) k ms := rfl

theorem dictLookup_dictAppendList_self (d : List (String × List Message))
    (k : String) (ms : List Message) :
    dictLookup (dictAppendList d k ms) k
      = (dictLookup d k).map (fun v => v ++ ms) := by
  induction ms generalizing d with
  | nil => cases h : dictLookup d k <;> simp [dictAppendList, h]
  | cons m ms ih =>
      rw [dictAppendList_cons, ih, dictLookup_dictAppend_self]
      cases dictLookup d k <;> simp

theorem dictLookup_dictAppendList_ne (d : List (String × List Message))
    (k k' : String) (ms : List Message) (h : k' ≠ k) :
    dictLookup (dictAppendList d k ms) k' = dictLookup d k' := by
  induction ms generalizing d with
  | nil => rfl
  | cons m ms ih =>
      rw [dictAppendList_cons, ih, dictLookup_dictAppend_ne _ _ _ _ h]

theorem dictHas_dictAppendList (d : List (String × List Message))
    (k k' : String) (ms : List Message) :
    dictHas (dictAppendList d k ms) k' = dictHas d k' := by
  induction ms generalizing d with
  | nil => rfl
  | cons m ms ih => rw [dictAppendList_cons, ih, dictHas_dictAppend]

theorem branchesJoin_dictAppendList_perm (d : List (String × List Message))
    (k : String) (ms : List Message) (h : dictHas d k = true) :
    List.Perm (branchesJoin (dictAppendList d k ms)) (branchesJoin d ++ ms) := by
  induction ms generalizing d with
  | nil => simp [dictAppendList]
  | cons m ms ih =>
      rw [dictAppendList_cons]
      have h2 : dictHas (dictAppend d k m) k = true := by
        rw [dictHas_dictAppend]; exact h
      refine (ih _ h2).trans ?_
      refine ((branchesJoin_dictAppend_perm d k m h).append_right ms).trans ?_
      rw [List.append_assoc]
      simp

theorem mem_dictAppend (d : List (String × List Message)) (k : String)
    (m : Message) (kv : String × List Message) (h : kv ∈ dictAppend d k m) :
    kv ∈ d ∨ ∃ v, (k, v) ∈ d ∧ kv = (k, v ++ [m]) := by
  induction d with
  | nil => simp [dictAppend] at h
  | cons kv0 rest ih =>
      by_cases hk : kv0.1 = k
      · simp only [dictAppend, if_pos hk] at h
        rcases List.mem_cons.mp h with h1 | h1
        · right
          refine ⟨kv0.2, ?_, by rw [h1, hk]⟩
          rw [← hk]
          exact List.mem_cons_self ..
        · exact Or.inl (List.mem_cons_of_mem _ h1)
      · simp only [dictAppend, if_neg hk] at h
        rcases List.mem_cons.mp h with h1 | h1
        · left; rw [h1]; exact List.mem_cons_self ..
        · rcases ih h1 with h2 | ⟨v, hv, he⟩
          · exact Or.inl (List.mem_cons_of_mem _ h2)
          · exact Or.inr ⟨v, List.mem_cons_of_mem _ hv, he⟩

theorem mem_dictEnsure (d : List (String × List Message)) (k : String)
    (kv : String × List Message) (h : kv ∈ dictEnsure d k) :
    kv ∈ d ∨ kv = (k, []) := by
  unfold dictEnsure at h
  by_cases hh : dictHas d k
  · rw [if_pos hh] at h; exact Or.inl h
  · rw [if_neg hh] at h
    rcases List.mem_append.mp h with h1 | h1
    · exact Or.inl h1
    · right; simpa using h1

theorem mem_dictAppendList (d : List (String × List Message)) (k : String)
    (ms : List Message) (kv : String × List Message)
    (h : kv ∈ dictAppendList d k ms) :
    kv ∈ d ∨ ∃ v ms', (k, v) ∈ d ∧ List.Sublist ms' ms ∧ kv = (k, v ++ ms') := by
  induction ms generalizing d with
  | nil => exact Or.inl h
  | cons m ms ih =>
      rw [dictAppendList_cons] at h
      rcases ih _ h with h1 | ⟨v, ms', hv, hs, he⟩
      · rcases mem_dictAppend _ _ _ _ h1 with h2 | ⟨v, hv, he⟩
        · exact Or.inl h2
        · exact Or.inr ⟨v, [m], hv,
            List.Sublist.cons₂ _ (List.nil_sublist ms), he⟩
      · rcases mem_dictAppend _ _ _ _ hv with h2 | ⟨v0, hv0, he0⟩
        · exact Or.inr ⟨v, ms', h2, List.Sublist.cons _ hs, he⟩
        · refine Or.inr ⟨v0, m :: ms', hv0, List.Sublist.cons₂ _ hs, ?_⟩
          have hvv : v = v0 ++ [m] := by
            have := congrArg Prod.snd he0
            simpa using this
          rw [he, hvv]
          simp

/-! ## Closed form of the per-message attribution loop -/

theorem foldl_attributeStep (ids : List String) (key : String)
    (c : List Message) (b : List (String × List Message))
    (m : List MainEntry) :
    c.foldl (attributeStep ids key) (b, m) =
      (dictAppendList b key (c.filter (fun x => ids.contains x.id)),
       m ++ (c.filter (fun x => !ids.contains x.id)).map MainEntry.msg) := by
  induction c generalizing b m with
  | nil => simp [dictAppendList]
  | cons x c ih =>
      rw [List.foldl_cons]
      by_cases hx : ids.contains x.id
      · have hmem : x.id ∈ ids := by simpa using hx
        rw [show attributeStep ids key (b, m) x = (dictAppend b key x, m) from
          by simp [attributeStep, hmem]]
        rw [ih]
        have h1 : (x :: c).filter (fun y => ids.contains y.id)
            = x :: c.filter (fun y => ids.contains y.id) := by
          simp [List.filter_cons, hmem]
        have h2 : (x :: c).filter (fun y => !ids.contains y.id)
            = c.filter (fun y => !ids.contains y.id) := by
          simp [List.filter_cons, hmem]
        rw [h1, h2, dictAppendList_cons]
      · have hmem : ¬ x.id ∈ ids := by simpa using hx
        rw [show attributeStep ids key (b, m) x = (b, m ++ [MainEntry.msg x]) from
          by simp [attributeStep, hmem]]
        rw [ih]
        have h1 : (x :: c).filter (fun y => ids.contains y.id)
            = c.filter (fun y => ids.contains y.id) := by
          simp [List.filter_cons, hmem]
        have h2 : (x :: c).filter (fun y => !ids.contains y.id)
            = x :: c.filter (fun y => !ids.contains y.id) := by
          simp [List.filter_cons, hmem]
        rw [h1, h2, List.map_cons, List.append_assoc]
        simp

/-! ## Characterization of processChunk -/

theorem processChunk_empty_ids (s : AnalysisState) (c : List Message)
    (a : Analysis) (h : normalizeIds a.debugging_message_ids = []) :
    processChunk s c a =
      { main_branch := s.main_branch ++ c.map MainEntry.msg
        summary_log := s.summary_log ++ a.chunk_summary
        debugging_branches := s.debugging_branches
        debugging_session_count := s.debugging_session_count
        is_currently_debugging := false } := by
  simp [processChunk, h]

theorem processChunk_some_ids (s : AnalysisState) (c : List Message)
    (a : Analysis) (h : normalizeIds a.debugging_message_ids ≠ []) :
    processChunk s c a =
      { main_branch :=
          (if s.is_currently_debugging then s.main_branch
           else s.main_branch ++
             [MainEntry.marker (a.debugging_summary.getD fallbackSummary)])
          ++ (c.filter (fun x =>
              !(normalizeIds a.debugging_message_ids).contains x.id)).map
              MainEntry.msg
        summary_log := s.summary_log ++ a.chunk_summary
        debugging_branches :=
          dictAppendList
            (dictEnsure s.debugging_branches
              (sessionKey (if s.is_currently_debugging then
                s.debugging_session_count else s.debugging_session_count + 1)))
            (sessionKey (if s.is_currently_debugging then
              s.debugging_session_count else s.debugging_session_count + 1))
            (c.filter (fun x =>
              (normalizeIds a.debugging_message_ids).contains x.id))
        debugging_session_count :=
          if s.is_currently_debugging then s.debugging_session_count
          else s.debugging_session_count + 1
        is_currently_debugging := true } := by
  have hie : (normalizeIds a.debugging_message_ids).isEmpty = false := by
    cases hn : normalizeIds a.debugging_message_ids with
    | nil => exact absurd hn h
    | cons x l => rfl
  simp only [processChunk, hie, Bool.false_eq_true, if_false,
    foldl_attributeStep]

/-! ## Observation lemmas -/

theorem mainMessages_append (l₁ l₂ : List MainEntry) :
    mainMessages (l₁ ++ l₂) = mainMessages l₁ ++ mainMessages l₂ := by
  simp [mainMessages]

theorem mainMessages_map_msg (l : List Message) :
    mainMessages (l.map MainEntry.msg) = l := by
  induction l with
  | nil => rfl
  | cons x l ih => simp [mainMessages] at ih ⊢; exact ih

theorem markerCount_append (l₁ l₂ : List MainEntry) :
    markerCount (l₁ ++ l₂) = markerCount l₁ + markerCount l₂ := by
  simp [markerCount]

theorem markerCount_map_msg (l : List Message) :
    markerCount (l.map MainEntry.msg) = 0 := by
  induction l with
  | nil => rfl
  | cons x l ih => simpa [markerCount] using ih

theorem markerCount_marker_singleton (t : String) :
    markerCount [MainEntry.marker t] = 1 := rfl

theorem markerCount_cons_marker (t : String) (l : List MainEntry) :
    markerCount (MainEntry.marker t :: l) = markerCount l + 1 := by
  simp [markerCount, List.filter_cons]

theorem mainMessages_processChunk (s : AnalysisState) (c : List Message)
    (a : Analysis) :
    mainMessages (processChunk s c a).main_branch
      = mainMessages s.main_branch
        ++ c.filter (fun x =>
            !(normalizeIds a.debugging_message_ids).contains x.id) := by
  by_cases h : normalizeIds a.debugging_message_ids = []
  · rw [processChunk_empty_ids s c a h]
    simp only [mainMessages_append, mainMessages_map_msg, h]
    simp
  · rw [processChunk_some_ids s c a h]
    have hm : mainMessages
        [MainEntry.marker (a.debugging_summary.getD fallbackSummary)] = [] := rfl
    by_cases hd : s.is_currently_debugging
    · simp only [if_pos hd, mainMessages_append, mainMessages_map_msg]
    · simp only [if_neg hd, mainMessages_append, mainMessages_map_msg, hm,
        List.append_nil]

theorem branchesJoin_processChunk_perm (s : AnalysisState) (c : List Message)
    (a : Analysis) :
    List.Perm (branchesJoin (processChunk s c a).debugging_branches)
      (branchesJoin s.debugging_branches
        ++ c.filter (fun x =>
            (normalizeIds a.debugging_message_ids).contains x.id)) := by
  by_cases h : normalizeIds a.debugging_message_ids = []
  · rw [processChunk_empty_ids s c a h, h]
    simp
  · rw [processChunk_some_ids s c a h]
    refine (branchesJoin_dictAppendList_perm _ _ _
      (dictHas_dictEnsure_self _ _)).trans ?_
    rw [branchesJoin_dictEnsure]

theorem branch_val_decomp (s : AnalysisState) (c : List Message) (a : Analysis)
    (kv : String × List Message)
    (h : kv ∈ (processChunk s c a).debugging_branches) :
    ∃ v ms', ((kv.1, v) ∈ s.debugging_branches ∨ v = [])
      ∧ List.Sublist ms' c ∧ kv.2 = v ++ ms' := by
  by_cases hD : normalizeIds a.debugging_message_ids = []
  · rw [processChunk_empty_ids s c a hD] at h
    exact ⟨kv.2, [], Or.inl (by simpa using h), List.nil_sublist c, by simp⟩
  · rw [processChunk_some_ids s c a hD] at h
    rcases mem_dictAppendList _ _ _ _ h with h1 | ⟨v, ms', hv, hs, he⟩
    · rcases mem_dictEnsure _ _ _ h1 with h2 | h2
      · exact ⟨kv.2, [], Or.inl (by simpa using h2), List.nil_sublist c, by simp⟩
      · refine ⟨[], [], Or.inr rfl, List.nil_sublist c, ?_⟩
        rw [h2]
        simp
    · have h2 : kv.2 = v ++ ms' := by
        have := congrArg Prod.snd he
        simpa using this
      rcases mem_dictEnsure _ _ _ hv with h3 | h3
      · refine ⟨v, ms', Or.inl ?_, hs.trans (List.filter_sublist c), h2⟩
        have h1 : kv.1 = sessionKey (if s.is_currently_debugging then
            s.debugging_session_count else s.debugging_session_count + 1) := by
          have := congrArg Prod.fst he
          simpa using this
        rw [h1]
        exact h3
      · have hv0 : v = [] := by
          have := congrArg Prod.snd h3
          simpa using this
        exact ⟨v, ms', Or.inr hv0, hs.trans (List.filter_sublist c), h2⟩

/-! ## Chunker lemmas -/

theorem chunkSeq_flatten (messages : List Message) (W : Nat) (i n : Nat) :
    (chunkSeq messages W i n).flatten = (messages.drop i).take (n * W) := by
  induction n generalizing i with
  | zero => simp [chunkSeq]
  | succ n ih =>
      by_cases h : messages.length ≤ i
      · simp only [chunkSeq, if_pos h]
        rw [List.drop_eq_nil_of_le h]
        simp
      · simp only [chunkSeq, if_neg h, List.flatten_cons, ih]
        rw [show (n + 1) * W = W + n * W from by ring, List.take_add]
        congr 1
        rw [List.drop_drop]

theorem le_totalChunks_mul (len W : Nat) (hW : 1 ≤ W) :
    len ≤ totalChunks len W * W := by
  have h := Nat.div_add_mod (len + W - 1) W
  have h2 : (len + W - 1) % W < W := Nat.mod_lt _ hW
  unfold totalChunks
  rw [Nat.mul_comm]
  omega

theorem chunkAll_flatten (messages : List Message) (W : Nat) (hW : 1 ≤ W) :
    (chunkAll messages W).flatten = messages := by
  unfold chunkAll
  rw [chunkSeq_flatten]
  simp only [List.drop_zero]
  exact List.take_of_length_le (le_totalChunks_mul _ _ hW)

theorem chunkSeq_ne_nil (messages : List Message) (W i n : Nat) :
    chunkSeq messages W i n ≠ [] ↔ 0 < n ∧ i < messages.length := by
  cases n with
  | zero => simp [chunkSeq]
  | succ n =>
      by_cases h : messages.length ≤ i
      · simp [chunkSeq, h, Nat.not_lt.mpr h]
      · simp [chunkSeq, h, Nat.not_le.mp h]

theorem chunkSeq_dropLast_length (messages : List Message) (W : Nat)
    (i n : Nat) :
    ∀ c ∈ (chunkSeq messages W i n).dropLast, c.length = W := by
  induction n generalizing i with
  | zero => intro c hc; simp [chunkSeq] at hc
  | succ n ih =>
      intro c hc
      by_cases h : messages.length ≤ i
      · simp [chunkSeq, h] at hc
      · simp only [chunkSeq, if_neg h] at hc
        cases hrest : chunkSeq messages W (i + W) n with
        | nil => rw [hrest] at hc; simp at hc
        | cons r rs =>
            rw [hrest] at hc
            rw [List.dropLast_cons₂] at hc
            rcases List.mem_cons.mp hc with h1 | h1
            · have hlt : 0 < n ∧ i + W < messages.length :=
                (chunkSeq_ne_nil messages W (i + W) n).mp (by rw [hrest]; simp)
              rw [h1]
              unfold chunkSlice
              rw [List.length_take, List.length_drop]
              omega
            · exact ih (i + W) c (by rw [hrest]; exact h1)

theorem chunkSeq_mem_length (messages : List Message) (W : Nat) (hW : 1 ≤ W)
    (i n : Nat) :
    ∀ c ∈ chunkSeq messages W i n, c ≠ [] ∧ c.length ≤ W := by
  induction n generalizing i with
  | zero => intro c hc; simp [chunkSeq] at hc
  | succ n ih =>
      intro c hc
      by_cases h : messages.length ≤ i
      · simp [chunkSeq, h] at hc
      · simp only [chunkSeq, if_neg h, List.mem_cons] at hc
        rcases hc with h1 | h1
        · constructor
          · rw [h1]
            have hlen : (chunkSlice messages i W).length = min W (messages.length - i) := by
              unfold chunkSlice
              rw [List.length_take, List.length_drop]
            intro hnil
            rw [hnil] at hlen
            simp at hlen
            omega
          · rw [h1]
            unfold chunkSlice
            rw [List.length_take]
            omega
        · exact ih (i + W) c h1

/-! ## Fold lemmas -/

theorem foldChunks_stopped (analyses : Nat → Analysis)
    (messages : List Message) (W : Nat) (s : AnalysisState) (idx n : Nat)
    (h : messages.length ≤ idx * W) :
    foldChunks analyses messages W s idx n = s := by
  cases n with
  | zero => rfl
  | succ n => simp [foldChunks, h]

theorem foldChunks_add (analyses : Nat → Analysis) (messages : List Message)
    (W : Nat) (s : AnalysisState) (idx a b : Nat) :
    foldChunks analyses messages W s idx (a + b)
      = foldChunks analyses messages W
          (foldChunks analyses messages W s idx a) (idx + a) b := by
  induction a generalizing s idx with
  | zero => simp [foldChunks]
  | succ a ih =>
      by_cases h : messages.length ≤ idx * W
      · rw [foldChunks_stopped _ _ _ _ _ _ h, foldChunks_stopped _ _ _ _ _ _ h,
          foldChunks_stopped]
        calc messages.length ≤ idx * W := h
          _ ≤ (idx + (a + 1)) * W := Nat.mul_le_mul_right _ (by omega)
      · rw [show a + 1 + b = (a + b) + 1 from by omega]
        simp only [foldChunks, if_neg h]
        rw [ih]
        rw [show idx + (a + 1) = (idx + 1) + a from by omega]

/-! ## Run-loop step equations -/

theorem runLoop_break {messages : List Message} {W : Nat} {lim cpE : Bool}
    {classify : Nat → Except Unit (List Char)}
    {loads : List Char → Option Analysis} {fuel : Nat}
    {lastR : Option (List Char)} {s : AnalysisState} {ops : List FileOp}
    {idx : Nat} (h : messages.length ≤ idx * W) :
    runLoop messages W lim cpE classify loads (fuel + 1) lastR s ops idx
      = finalize lim cpE s ops := by
  simp [runLoop, h]

theorem runLoop_succ_error {messages : List Message} {W : Nat}
    {lim cpE : Bool} {classify : Nat → Except Unit (List Char)}
    {loads : List Char → Option Analysis} {fuel : Nat}
    {lastR : Option (List Char)} {s : AnalysisState} {ops : List FileOp}
    {idx : Nat} {e : Unit} (h : ¬ messages.length ≤ idx * W)
    (hcl : classify idx = Except.error e) :
    runLoop messages W lim cpE classify loads (fuel + 1) lastR s ops idx
      = match lastR with
        | none =>
            { outcome := Outcome.handlerCrashed idx, ops := ops, state := s }
        | some r =>
            { outcome := Outcome.reported idx r, ops := ops, state := s } := by
  cases lastR <;> simp [runLoop, h, hcl]

theorem runLoop_succ_noparse {messages : List Message} {W : Nat}
    {lim cpE : Bool} {classify : Nat → Except Unit (List Char)}
    {loads : List Char → Option Analysis} {fuel : Nat}
    {lastR : Option (List Char)} {s : AnalysisState} {ops : List FileOp}
    {idx : Nat} {text : List Char} (h : ¬ messages.length ≤ idx * W)
    (hcl : classify idx = Except.ok text)
    (hld : loads (cleanResponse text) = none) :
    runLoop messages W lim cpE classify loads (fuel + 1) lastR s ops idx
      = { outcome := Outcome.reported idx text, ops := ops, state := s } := by
  simp [runLoop, h, hcl, hld]

theorem runLoop_succ_parsed {messages : List Message} {W : Nat}
    {lim cpE : Bool} {classify : Nat → Except Unit (List Char)}
    {loads : List Char → Option Analysis} {fuel : Nat}
    {lastR : Option (List Char)} {s : AnalysisState} {ops : List FileOp}
    {idx : Nat} {text : List Char} {analysis : Analysis}
    (h : ¬ messages.length ≤ idx * W)
    (hcl : classify idx = Except.ok text)
    (hld : loads (cleanResponse text) = some analysis) :
    runLoop messages W lim cpE classify loads (fuel + 1) lastR s ops idx
      = if lim then
          runLoop messages W lim cpE classify loads fuel (some text)
            (processChunk s (chunkSlice messages (idx * W) W) analysis) ops
            (idx + 1)
        else
          { outcome := Outcome.reported idx text, ops := ops,
            state := processChunk s (chunkSlice messages (idx * W) W)
              analysis } := by
  simp [runLoop, h, hcl, hld]

/-! ## Run-loop lemmas -/

theorem runLoop_limited_checkpointOps (messages : List Message) (W : Nat)
    (cpE : Bool) (classify : Nat → Except Unit (List Char))
    (loads : List Char → Option Analysis) :
    ∀ (fuel : Nat) (lastR : Option (List Char)) (s : AnalysisState)
      (ops : List FileOp) (idx : Nat),
    ((runLoop messages W true cpE classify loads fuel lastR s ops
        idx).ops.filter isCheckpointOp) = ops.filter isCheckpointOp := by
  intro fuel
  induction fuel with
  | zero =>
      intro lastR s ops idx
      simp [runLoop, finalize, isCheckpointOp, List.filter_append]
  | succ fuel ih =>
      intro lastR s ops idx
      by_cases h : messages.length ≤ idx * W
      · rw [runLoop_break h]
        simp [finalize, isCheckpointOp, List.filter_append]
      · cases hcl : classify idx with
        | error e =>
            rw [runLoop_succ_error h hcl]
            cases lastR <;> rfl
        | ok text =>
            cases hld : loads (cleanResponse text) with
            | none => rw [runLoop_succ_noparse h hcl hld]
            | some analysis =>
                rw [runLoop_succ_parsed h hcl hld]
                simp only [if_true]
                exact ih _ _ _ _

/-- Both filters of a list together are a permutation of the list. -/
theorem filter_not_append_perm (p : Message → Bool) (l : List Message) :
    List.Perm (l.filter (fun x => !p x) ++ l.filter p) l := by
  simpa using List.filter_append_perm (fun x => !p x) l

theorem perm_shuffle (A B C D : List Message) :
    List.Perm ((A ++ C) ++ (B ++ D)) ((A ++ B) ++ (C ++ D)) := by
  simp only [List.perm_iff_count, List.count_append]
  intro a
  omega

theorem take_add_chunkSlice (messages : List Message) (W idx : Nat) :
    messages.take (idx * W) ++ chunkSlice messages (idx * W) W
      = messages.take ((idx + 1) * W) := by
  rw [show (idx + 1) * W = idx * W + W from by ring, List.take_add]
  rfl

/-- A processed chunk extends the partition invariant by one window. -/
theorem processChunk_partition_step (messages : List Message) (W idx : Nat)
    (s : AnalysisState) (a : Analysis)
    (hperm : List.Perm
      (mainMessages s.main_branch ++ branchesJoin s.debugging_branches)
      (messages.take (idx * W))) :
    List.Perm
      (mainMessages (processChunk s (chunkSlice messages (idx * W) W)
          a).main_branch
        ++ branchesJoin (processChunk s (chunkSlice messages (idx * W) W)
          a).debugging_branches)
      (messages.take ((idx + 1) * W)) := by
  rw [mainMessages_processChunk]
  refine ((branchesJoin_processChunk_perm s _ a).append_left _).trans ?_
  refine (perm_shuffle _ _ _ _).trans ?_
  rw [← take_add_chunkSlice messages W idx]
  exact hperm.append (filter_not_append_perm _ _)

theorem runLoop_completed_perm (messages : List Message) (W : Nat)
    (lim cpE : Bool) (classify : Nat → Except Unit (List Char))
    (loads : List Char → Option Analysis) :
    ∀ (fuel idx : Nat) (lastR : Option (List Char)) (s : AnalysisState)
      (ops : List FileOp),
    List.Perm (mainMessages s.main_branch ++ branchesJoin s.debugging_branches)
      (messages.take (idx * W)) →
    (runLoop messages W lim cpE classify loads fuel lastR s ops idx).outcome
      = Outcome.completed →
    List.Perm
      (mainMessages (runLoop messages W lim cpE classify loads fuel lastR s
          ops idx).state.main_branch
        ++ branchesJoin (runLoop messages W lim cpE classify loads fuel lastR
          s ops idx).state.debugging_branches)
      (messages.take ((idx + fuel) * W)) := by
  intro fuel
  induction fuel with
  | zero =>
      intro idx lastR s ops hperm _
      simpa [runLoop, finalize] using hperm
  | succ fuel ih =>
      intro idx lastR s ops hperm hdone
      by_cases h : messages.length ≤ idx * W
      · have e1 : messages.take (idx * W) = messages :=
          List.take_of_length_le h
        have e2 : messages.take ((idx + (fuel + 1)) * W) = messages :=
          List.take_of_length_le
            (h.trans (Nat.mul_le_mul_right _ (by omega)))
        rw [e1] at hperm
        rw [runLoop_break h]
        simp only [finalize, e2]
        exact hperm
      · cases hcl : classify idx with
        | error e =>
            rw [runLoop_succ_error h hcl] at hdone
            cases lastR <;> simp at hdone
        | ok text =>
            cases hld : loads (cleanResponse text) with
            | none =>
                rw [runLoop_succ_noparse h hcl hld] at hdone
                simp at hdone
            | some analysis =>
                rw [runLoop_succ_parsed h hcl hld] at hdone ⊢
                cases lim with
                | false => simp at hdone
                | true =>
                    simp only [if_true] at hdone ⊢
                    have := ih (idx + 1) (some text)
                      (processChunk s (chunkSlice messages (idx * W) W)
                        analysis) ops
                      (processChunk_partition_step messages W idx s analysis
                        hperm) hdone
                    rw [show idx + (fuel + 1) = (idx + 1) + fuel from by omega]
                    exact this

theorem runLoop_completed_sublists (messages : List Message) (W : Nat)
    (lim cpE : Bool) (classify : Nat → Except Unit (List Char))
    (loads : List Char → Option Analysis) :
    ∀ (fuel idx : Nat) (lastR : Option (List Char)) (s : AnalysisState)
      (ops : List FileOp),
    List.Sublist (mainMessages s.main_branch) (messages.take (idx * W)) →
    (∀ kv ∈ s.debugging_branches,
      List.Sublist kv.2 (messages.take (idx * W))) →
    (runLoop messages W lim cpE classify loads fuel lastR s ops idx).outcome
      = Outcome.completed →
    List.Sublist
      (mainMessages (runLoop messages W lim cpE classify loads fuel lastR s
        ops idx).state.main_branch)
      (messages.take ((idx + fuel) * W))
    ∧ ∀ kv ∈ (runLoop messages W lim cpE classify loads fuel lastR s ops
        idx).state.debugging_branches,
      List.Sublist kv.2 (messages.take ((idx + fuel) * W)) := by
  intro fuel
  induction fuel with
  | zero =>
      intro idx lastR s ops hmain hbr _
      simp only [runLoop, finalize, Nat.add_zero]
      exact ⟨hmain, hbr⟩
  | succ fuel ih =>
      intro idx lastR s ops hmain hbr hdone
      by_cases h : messages.length ≤ idx * W
      · have e1 : messages.take (idx * W) = messages :=
          List.take_of_length_le h
        have e2 : messages.take ((idx + (fuel + 1)) * W) = messages :=
          List.take_of_length_le
            (h.trans (Nat.mul_le_mul_right _ (by omega)))
        rw [e1] at hmain hbr
        rw [runLoop_break h]
        simp only [finalize, e2]
        exact ⟨hmain, hbr⟩
      · cases hcl : classify idx with
        | error e =>
            rw [runLoop_succ_error h hcl] at hdone
            cases lastR <;> simp at hdone
        | ok text =>
            cases hld : loads (cleanResponse text) with
            | none =>
                rw [runLoop_succ_noparse h hcl hld] at hdone
                simp at hdone
            | some analysis =>
                rw [runLoop_succ_parsed h hcl hld] at hdone ⊢
                cases lim with
                | false => simp at hdone
                | true =>
                    simp only [if_true] at hdone ⊢
                    rw [show idx + (fuel + 1) = (idx + 1) + fuel from by omega]
                    refine ih (idx + 1) (some text) _ ops ?_ ?_ hdone
                    · rw [mainMessages_processChunk,
                        ← take_add_chunkSlice messages W idx]
                      exact hmain.append (List.filter_sublist _)
                    · intro kv hkv
                      rcases branch_val_decomp _ _ _ _ hkv with
                        ⟨v, ms', hv, hs, he⟩
                      rw [he, ← take_add_chunkSlice messages W idx]
                      refine List.Sublist.append ?_ hs
                      rcases hv with hv | hv
                      · exact hbr (kv.1, v) hv
                      · rw [hv]; exact List.nil_sublist _

/-! ## Cleaning lemmas -/

theorem dropWhile_eq_self_append (q : Char → Bool) (x y : List Char)
    (hx : x.dropWhile q = x) (hne : x ≠ []) :
    (x ++ y).dropWhile q = x ++ y := by
  cases x with
  | nil => exact absurd rfl hne
  | cons c t =>
      have hc : q c = false := by
        by_cases hq : q c = true
        · exfalso
          rw [List.dropWhile_cons, if_pos hq] at hx
          have hlen := (List.dropWhile_sublist q (l := t)).length_le
          rw [hx] at hlen
          simp at hlen
        · simpa using hq
      rw [List.cons_append, List.dropWhile_cons, hc]
      simp

theorem pyStrip_eq_self_of_ends (s : List Char)
    (h1 : s.dropWhile Char.isWhitespace = s)
    (h2 : s.reverse.dropWhile Char.isWhitespace = s.reverse) :
    pyStrip s = s := by
  unfold pyStrip
  rw [h1, h2, List.reverse_reverse]

theorem pyStrip_ws (core ws1 ws2 : List Char) (hcne : core ≠ [])
    (h1 : core.dropWhile Char.isWhitespace = core)
    (h2 : core.reverse.dropWhile Char.isWhitespace = core.reverse)
    (hws1 : ∀ c ∈ ws1, c.isWhitespace = true)
    (hws2 : ∀ c ∈ ws2, c.isWhitespace = true) :
    pyStrip (ws1 ++ core ++ ws2) = core := by
  have hw1 : ws1.dropWhile Char.isWhitespace = [] :=
    List.dropWhile_eq_nil_iff.mpr (by intro x hx; simpa using hws1 x hx)
  have hw2 : ws2.reverse.dropWhile Char.isWhitespace = [] :=
    List.dropWhile_eq_nil_iff.mpr
      (by intro x hx; simpa using hws2 x (List.mem_reverse.mp hx))
  have e1 : (ws1 ++ core ++ ws2).dropWhile Char.isWhitespace
      = core ++ ws2 := by
    rw [List.append_assoc, List.dropWhile_append, hw1]
    simp only [List.isEmpty_nil, if_true]
    exact dropWhile_eq_self_append _ _ _ h1 hcne
  have hrne : core.reverse ≠ [] := by
    intro hh
    exact hcne (by simpa using congrArg List.reverse hh)
  have e2 : (core ++ ws2).reverse.dropWhile Char.isWhitespace
      = core.reverse := by
    rw [List.reverse_append, List.dropWhile_append, hw2]
    simp only [List.isEmpty_nil, if_true]
    exact h2
  unfold pyStrip
  rw [e1, e2, List.reverse_reverse]

theorem pyRemovePre_append (pre s : List Char) :
    pyRemovePre pre (pre ++ s) = s := by
  have h : pre.isPrefixOf (pre ++ s) = true := by
    rw [List.isPrefixOf_iff_prefix]
    exact List.prefix_append _ _
  simp only [pyRemovePre, h, if_true]
  exact List.drop_left _ _

theorem pyRemoveSuf_append (suf s : List Char) :
    pyRemoveSuf suf (s ++ suf) = s := by
  have h : suf.isSuffixOf (s ++ suf) = true := by
    rw [List.isSuffixOf_iff_suffix]
    exact List.suffix_append _ _
  simp only [pyRemoveSuf, h, if_true]
  rw [List.length_append,
    show s.length + suf.length - suf.length = s.length from by omega]
  exact List.take_left _ _

theorem pyRemovePre_skip (pre s : List Char) (h : pre.isPrefixOf s = false) :
    pyRemovePre pre s = s := by
  simp [pyRemovePre, h]

theorem pyRemoveSuf_skip (suf s : List Char) (h : suf.isSuffixOf s = false) :
    pyRemoveSuf suf s = s := by
  simp [pyRemoveSuf, h]

/-! ## Field lemmas for the debugging path of processChunk -/

theorem processChunk_flag_some (s : AnalysisState) (c : List Message)
    (a : Analysis) (h : normalizeIds a.debugging_message_ids ≠ []) :
    (processChunk s c a).is_currently_debugging = true := by
  rw [processChunk_some_ids s c a h]

theorem processChunk_count_some (s : AnalysisState) (c : List Message)
    (a : Analysis) (h : normalizeIds a.debugging_message_ids ≠ []) :
    (processChunk s c a).debugging_session_count
      = if s.is_currently_debugging then s.debugging_session_count
        else s.debugging_session_count + 1 := by
  rw [processChunk_some_ids s c a h]

theorem processChunk_main_some (s : AnalysisState) (c : List Message)
    (a : Analysis) (h : normalizeIds a.debugging_message_ids ≠ []) :
    (processChunk s c a).main_branch
      = (if s.is_currently_debugging then s.main_branch
         else s.main_branch ++
           [MainEntry.marker (a.debugging_summary.getD fallbackSummary)])
        ++ (c.filter (fun x =>
            !(normalizeIds a.debugging_message_ids).contains x.id)).map
            MainEntry.msg := by
  rw [processChunk_some_ids s c a h]

theorem processChunk_branches_some (s : AnalysisState) (c : List Message)
    (a : Analysis) (h : normalizeIds a.debugging_message_ids ≠ []) :
    (processChunk s c a).debugging_branches
      = dictAppendList
          (dictEnsure s.debugging_branches
            (sessionKey (if s.is_currently_debugging then
              s.debugging_session_count else s.debugging_session_count + 1)))
          (sessionKey (if s.is_currently_debugging then
            s.debugging_session_count else s.debugging_session_count + 1))
          (c.filter (fun x =>
            (normalizeIds a.debugging_message_ids).contains x.id)) := by
  rw [processChunk_some_ids s c a h]

/-- The session branch at the active key after a debugging chunk. -/
theorem processChunk_lookup_some (s : AnalysisState) (c : List Message)
    (a : Analysis) (h : normalizeIds a.debugging_message_ids ≠ [])
    (key : String)
    (hkey : key = sessionKey (if s.is_currently_debugging then
      s.debugging_session_count else s.debugging_session_count + 1)) :
    dictLookup (processChunk s c a).debugging_branches key
      = some ((dictLookup s.debugging_branches key).getD []
          ++ c.filter (fun x =>
            (normalizeIds a.debugging_message_ids).contains x.id)) := by
  rw [processChunk_branches_some s c a h, hkey,
    dictLookup_dictAppendList_self, dictLookup_dictEnsure_self]
  rfl

/-! ## Claim theorems -/

/-- Claim C1 (code-bug evidence): an unbounded run whose first chunk is
successfully classified and folded into the state nevertheless performs no
file operation at all — in particular, no checkpoint write recording
`last_processed_chunk = 0` — and aborts reporting chunk 0.  The save block
of lines 135-145 wraps the checkpoint dict in a set literal
(`checkpoint_data = {{...}}`, line 136), which raises `TypeError` inside the
`try` block before any file is opened; the handler catches it and returns. -/
theorem c1_unbounded_run_never_checkpoints :
    (analyzeChatHistory [⟨"1", "a"⟩] 10 none none none
      (fun _ => Except.ok (("resp" : String)).data)
      (fun _ => some ⟨false, none, [], []⟩)).ops = []
    ∧ (analyzeChatHistory [⟨"1", "a"⟩] 10 none none none
        (fun _ => Except.ok (("resp" : String)).data)
        (fun _ => some ⟨false, none, [], []⟩)).outcome
      = Outcome.reported 0 (("resp" : String)).data
    ∧ (analyzeChatHistory [⟨"1", "a"⟩] 10 none none none
        (fun _ => Except.ok (("resp" : String)).data)
        (fun _ => some ⟨false, none, [], []⟩)).state.main_branch
      = [MainEntry.msg ⟨"1", "a"⟩] := by
  decide

/-- Claim C3 (counterexample): a verdict whose debugging-id list contains
only identifiers matching no message of the chunk is NOT treated as an
empty set: the state machine takes the debugging path, setting
`is_currently_debugging` to true, opening a new session (count 1), appending
a SummaryMarker, and creating an empty `debug_session_1` branch —
contradicting the claim that it behaves as for an empty `D`. -/
theorem c3_foreign_ids_counterexample :
    (∀ m ∈ ([⟨"m1", "x"⟩] : List Message),
      (normalizeIds [IdItem.str ("zz")]).contains m.id = false)
    ∧ normalizeIds [IdItem.str ("zz")] ≠ []
    ∧ (processChunk initState [⟨"m1", "x"⟩]
        ⟨true, some ("s"), [IdItem.str ("zz")], []⟩).is_currently_debugging
      = true
    ∧ (processChunk initState [⟨"m1", "x"⟩]
        ⟨true, some ("s"), [IdItem.str ("zz")], []⟩).debugging_session_count
      = 1
    ∧ markerCount (processChunk initState [⟨"m1", "x"⟩]
        ⟨true, some ("s"), [IdItem.str ("zz")], []⟩).main_branch = 1
    ∧ dictLookup (processChunk initState [⟨"m1", "x"⟩]
        ⟨true, some ("s"), [IdItem.str ("zz")], []⟩).debugging_branches
        (sessionKey 1) = some [] := by
  decide

/-- Claim C3 (amended): identifiers not present in the chunk are inert for
message attribution only — every message of the chunk goes, in order, to
`main_branch`, and no message enters any debugging branch.  But the
emptiness test of the state machine is applied to the normalized id set
BEFORE any intersection with the chunk, so a verdict listing only foreign
ids still takes the debugging path: `is_currently_debugging` becomes true,
and when no session was open the counter is incremented, a SummaryMarker is
appended, and an empty session branch is created. -/
theorem c3_foreign_ids_amended (s : AnalysisState) (c : List Message)
    (a : Analysis) (hne : normalizeIds a.debugging_message_ids ≠ [])
    (hno : ∀ m ∈ c,
      (normalizeIds a.debugging_message_ids).contains m.id = false) :
    (processChunk s c a).is_currently_debugging = true
    ∧ (processChunk s c a).debugging_session_count
        = (if s.is_currently_debugging then s.debugging_session_count
           else s.debugging_session_count + 1)
    ∧ (processChunk s c a).main_branch
        = (if s.is_currently_debugging then s.main_branch
           else s.main_branch ++ [MainEntry.marker
             (a.debugging_summary.getD fallbackSummary)])
          ++ c.map MainEntry.msg
    ∧ branchesJoin (processChunk s c a).debugging_branches
        = branchesJoin s.debugging_branches := by
  have hfe : c.filter (fun x =>
      (normalizeIds a.debugging_message_ids).contains x.id) = [] := by
    rw [List.filter_eq_nil_iff]
    intro x hx
    simpa using hno x hx
  have hfs : c.filter (fun x =>
      !(normalizeIds a.debugging_message_ids).contains x.id) = c := by
    rw [List.filter_eq_self]
    intro x hx
    simpa using hno x hx
  refine ⟨processChunk_flag_some s c a hne,
    processChunk_count_some s c a hne, ?_, ?_⟩
  · rw [processChunk_main_some s c a hne, hfs]
  · rw [processChunk_branches_some s c a hne, hfe]
    exact branchesJoin_dictEnsure _ _

theorem c3_foreign_ids_amended_witness :
    (processChunk initState [⟨"m1", "x"⟩]
      ⟨true, some ("s"), [IdItem.str ("zz")], []⟩).is_currently_debugging
      = true
    ∧ (processChunk initState [⟨"m1", "x"⟩]
        ⟨true, some ("s"), [IdItem.str ("zz")], []⟩).debugging_session_count
      = (if initState.is_currently_debugging then
          initState.debugging_session_count
         else initState.debugging_session_count + 1)
    ∧ (processChunk initState [⟨"m1", "x"⟩]
        ⟨true, some ("s"), [IdItem.str ("zz")], []⟩).main_branch
      = (if initState.is_currently_debugging then initState.main_branch
         else initState.main_branch ++ [MainEntry.marker
          ((⟨true, some ("s"), [IdItem.str ("zz")], []⟩ :
            Analysis).debugging_summary.getD fallbackSummary)])
        ++ ([⟨"m1", "x"⟩] : List Message).map MainEntry.msg
    ∧ branchesJoin (processChunk initState [⟨"m1", "x"⟩]
        ⟨true, some ("s"), [IdItem.str ("zz")], []⟩).debugging_branches
      = branchesJoin initState.debugging_branches :=
  c3_foreign_ids_amended initState [⟨"m1", "x"⟩]
    ⟨true, some ("s"), [IdItem.str ("zz")], []⟩ (by decide) (by decide)

/-- Claim C4: from an idle state, two consecutive chunks whose verdicts both
carry non-empty debugging-id sets land their debugging messages in the same
session branch under the same key `debug_session_(count+1)`, the session
counter is incremented exactly once, and exactly one SummaryMarker is
appended to `main_branch` (at the first chunk's open event, none at the
second). -/
theorem c4_consecutive_debug_same_session (s : AnalysisState)
    (c₁ c₂ : List Message) (a₁ a₂ : Analysis)
    (hflag : s.is_currently_debugging = false)
    (h₁ : normalizeIds a₁.debugging_message_ids ≠ [])
    (h₂ : normalizeIds a₂.debugging_message_ids ≠ []) :
    (processChunk s c₁ a₁).is_currently_debugging = true
    ∧ (processChunk (processChunk s c₁ a₁) c₂ a₂).debugging_session_count
        = s.debugging_session_count + 1
    ∧ dictLookup
        (processChunk (processChunk s c₁ a₁) c₂ a₂).debugging_branches
        (sessionKey (s.debugging_session_count + 1))
      = some ((dictLookup s.debugging_branches
            (sessionKey (s.debugging_session_count + 1))).getD []
          ++ c₁.filter (fun x =>
              (normalizeIds a₁.debugging_message_ids).contains x.id)
          ++ c₂.filter (fun x =>
              (normalizeIds a₂.debugging_message_ids).contains x.id))
    ∧ markerCount
        (processChunk (processChunk s c₁ a₁) c₂ a₂).main_branch
      = markerCount s.main_branch + 1 := by
  have hflag₁ : (processChunk s c₁ a₁).is_currently_debugging = true :=
    processChunk_flag_some s c₁ a₁ h₁
  have hcount₁ : (processChunk s c₁ a₁).debugging_session_count
      = s.debugging_session_count + 1 := by
    rw [processChunk_count_some s c₁ a₁ h₁, hflag]
    simp
  have hcount₂ : (processChunk (processChunk s c₁ a₁) c₂
      a₂).debugging_session_count = s.debugging_session_count + 1 := by
    rw [processChunk_count_some _ c₂ a₂ h₂, hflag₁]
    simp [hcount₁]
  refine ⟨hflag₁, hcount₂, ?_, ?_⟩
  · rw [processChunk_lookup_some _ c₂ a₂ h₂ _
        (by rw [hflag₁]; simp [hcount₁]),
      processChunk_lookup_some s c₁ a₁ h₁ _
        (by rw [hflag]; simp)]
    rfl
  · rw [processChunk_main_some _ c₂ a₂ h₂, hflag₁,
      processChunk_main_some s c₁ a₁ h₁, hflag]
    simp [markerCount_append, markerCount_map_msg, markerCount_marker_singleton,
      markerCount_cons_marker]

theorem c4_consecutive_debug_same_session_witness :
    (processChunk initState [⟨"1", "a"⟩]
      ⟨true, some ("fix"), [IdItem.str ("1")], []⟩).is_currently_debugging
      = true
    ∧ (processChunk (processChunk initState [⟨"1", "a"⟩]
        ⟨true, some ("fix"), [IdItem.str ("1")], []⟩) [⟨"2", "b"⟩]
        ⟨true, none, [IdItem.str ("2")], []⟩).debugging_session_count
      = initState.debugging_session_count + 1
    ∧ dictLookup (processChunk (processChunk initState [⟨"1", "a"⟩]
        ⟨true, some ("fix"), [IdItem.str ("1")], []⟩) [⟨"2", "b"⟩]
        ⟨true, none, [IdItem.str ("2")], []⟩).debugging_branches
        (sessionKey (initState.debugging_session_count + 1))
      = some ((dictLookup initState.debugging_branches
            (sessionKey (initState.debugging_session_count + 1))).getD []
          ++ ([⟨"1", "a"⟩] : List Message).filter (fun x =>
              (normalizeIds [IdItem.str ("1")]).contains x.id)
          ++ ([⟨"2", "b"⟩] : List Message).filter (fun x =>
              (normalizeIds [IdItem.str ("2")]).contains x.id))
    ∧ markerCount (processChunk (processChunk initState [⟨"1", "a"⟩]
        ⟨true, some ("fix"), [IdItem.str ("1")], []⟩) [⟨"2", "b"⟩]
        ⟨true, none, [IdItem.str ("2")], []⟩).main_branch
      = markerCount initState.main_branch + 1 :=
  c4_consecutive_debug_same_session initState [⟨"1", "a"⟩] [⟨"2", "b"⟩]
    ⟨true, some ("fix"), [IdItem.str ("1")], []⟩
    ⟨true, none, [IdItem.str ("2")], []⟩ rfl (by decide) (by decide)

/-- Claim C5: loading the checkpoint contents recorded for the state after
chunk k (as the load path of lines 37-42 restores them) and continuing from
chunk k+1 over the remaining chunks yields the same final state as a single
uninterrupted pass over all chunks. -/
theorem c5_resume_equivalence (analyses : Nat → Analysis)
    (messages : List Message) (W k : Nat)
    (hk : k < totalChunks messages.length W) :
    foldChunks analyses messages W
      (loadCheckpoint (mkCheckpointData
        (foldChunks analyses messages W initState 0 (k + 1)) k))
      (resumeIndex (mkCheckpointData
        (foldChunks analyses messages W initState 0 (k + 1)) k))
      (totalChunks messages.length W - resumeIndex (mkCheckpointData
        (foldChunks analyses messages W initState 0 (k + 1)) k))
      = runAll analyses messages W := by
  have hload : loadCheckpoint (mkCheckpointData
      (foldChunks analyses messages W initState 0 (k + 1)) k)
      = foldChunks analyses messages W initState 0 (k + 1) := rfl
  have hres : resumeIndex (mkCheckpointData
      (foldChunks analyses messages W initState 0 (k + 1)) k) = k + 1 := rfl
  rw [hload, hres]
  unfold runAll
  conv_rhs => rw [show totalChunks messages.length W
    = (k + 1) + (totalChunks messages.length W - (k + 1)) from by omega,
    foldChunks_add, Nat.zero_add]

theorem c5_resume_equivalence_witness :
    foldChunks (fun _ => ⟨false, none, [], []⟩)
      [⟨"1", "a"⟩, ⟨"2", "b"⟩] 1
      (loadCheckpoint (mkCheckpointData
        (foldChunks (fun _ => ⟨false, none, [], []⟩)
          [⟨"1", "a"⟩, ⟨"2", "b"⟩] 1 initState 0 (0 + 1)) 0))
      (resumeIndex (mkCheckpointData
        (foldChunks (fun _ => ⟨false, none, [], []⟩)
          [⟨"1", "a"⟩, ⟨"2", "b"⟩] 1 initState 0 (0 + 1)) 0))
      (totalChunks ([⟨"1", "a"⟩, ⟨"2", "b"⟩] : List Message).length 1
        - resumeIndex (mkCheckpointData
          (foldChunks (fun _ => ⟨false, none, [], []⟩)
            [⟨"1", "a"⟩, ⟨"2", "b"⟩] 1 initState 0 (0 + 1)) 0))
      = runAll (fun _ => ⟨false, none, [], []⟩)
          [⟨"1", "a"⟩, ⟨"2", "b"⟩] 1 :=
  c5_resume_equivalence (fun _ => ⟨false, none, [], []⟩)
    [⟨"1", "a"⟩, ⟨"2", "b"⟩] 1 0 (by decide)

/-- Claim C6: a bounded run (an explicit start chunk or an explicit
chunk-count cap was supplied) performs no checkpoint file operation at all
— no read, no write, no delete — whether the run succeeds or fails. -/
theorem c6_bounded_run_no_checkpoint_ops (messages : List Message)
    (chunk_size : Nat) (start_chunk num_chunks : Option Nat)
    (checkpoint : Option Checkpoint)
    (classify : Nat → Except Unit (List Char))
    (loads : List Char → Option Analysis)
    (h : (start_chunk.isSome || num_chunks.isSome) = true) :
    ((analyzeChatHistory messages chunk_size start_chunk num_chunks
      checkpoint classify loads).ops.filter isCheckpointOp) = [] := by
  cases checkpoint with
  | none =>
      simp only [analyzeChatHistory, h]
      rw [runLoop_limited_checkpointOps]
      rfl
  | some c =>
      simp only [analyzeChatHistory, h]
      rw [runLoop_limited_checkpointOps]
      rfl

theorem c6_bounded_run_no_checkpoint_ops_witness :
    ((analyzeChatHistory [⟨"1", "a"⟩] 1 (some 1) none none
      (fun _ => Except.error ()) (fun _ => none)).ops.filter
      isCheckpointOp) = [] :=
  c6_bounded_run_no_checkpoint_ops [⟨"1", "a"⟩] 1 (some 1) none none
    (fun _ => Except.error ()) (fun _ => none) (by decide)

/-- Claim C7: for every message sequence and window size W ≥ 1, starting at
chunk 0 with no cap, the chunker produces contiguous non-overlapping
windows in order: their concatenation reproduces the input exactly, every
chunk except possibly the last has length exactly W, and every chunk is
non-empty with length at most W. -/
theorem c7_chunker_partition (messages : List Message) (W : Nat)
    (hW : 1 ≤ W) (hne : messages ≠ []) :
    (chunkAll messages W).flatten = messages
    ∧ (∀ c ∈ (chunkAll messages W).dropLast, c.length = W)
    ∧ (∀ c ∈ chunkAll messages W, c ≠ [] ∧ c.length ≤ W) :=
  ⟨chunkAll_flatten messages W hW,
   chunkSeq_dropLast_length messages W 0 _,
   chunkSeq_mem_length messages W hW 0 _⟩

theorem c7_chunker_partition_witness :
    (chunkAll [⟨"1", "a"⟩, ⟨"2", "b"⟩, ⟨"3", "c"⟩] 2).flatten
      = [⟨"1", "a"⟩, ⟨"2", "b"⟩, ⟨"3", "c"⟩]
    ∧ (∀ c ∈ (chunkAll [⟨"1", "a"⟩, ⟨"2", "b"⟩, ⟨"3", "c"⟩] 2).dropLast,
        c.length = 2)
    ∧ (∀ c ∈ chunkAll [⟨"1", "a"⟩, ⟨"2", "b"⟩, ⟨"3", "c"⟩] 2,
        c ≠ [] ∧ c.length ≤ 2) :=
  c7_chunker_partition [⟨"1", "a"⟩, ⟨"2", "b"⟩, ⟨"3", "c"⟩] 2 (by decide)
    (by decide)

/-- Claim C8 (code-bug evidence): on a transport failure at the first
processed chunk, the except handler of lines 148-151 itself crashes while
evaluating `response.text` — the local `response` was never assigned — so
the failing chunk's raw response is not reported (there is none); the run
still stops at once with no checkpoint write and no output files. -/
theorem c8_transport_failure_handler_crash :
    (analyzeChatHistory [⟨"1", "a"⟩] 10 none none none
      (fun _ => Except.error ()) (fun _ => none)).outcome
      = Outcome.handlerCrashed 0
    ∧ (analyzeChatHistory [⟨"1", "a"⟩] 10 none none none
        (fun _ => Except.error ()) (fun _ => none)).ops = [] := by
  decide

/-- Claim C9 (counterexample): a well-formed verdict payload wrapped on
both sides in plain fence markers (three backticks, without the json tag on
the opening fence) is not stripped by the cleaning of line 99: cleaning
leaves the unwrapped payload unchanged, but the wrapped response cleans to
a different text that still begins with the fence marker — so the wrapped
response is not parsed into the same Verdict as the unwrapped payload. -/
theorem c9_fence_counterexample :
    cleanResponse (("\x7b\x22is_debugging\x22: false\x7d" : String).data)
      = ("\x7b\x22is_debugging\x22: false\x7d" : String).data
    ∧ cleanResponse (fenceEnd
          ++ ("\x7b\x22is_debugging\x22: false\x7d" : String).data
          ++ fenceEnd)
        ≠ ("\x7b\x22is_debugging\x22: false\x7d" : String).data
    ∧ fenceEnd.isPrefixOf (cleanResponse (fenceEnd
        ++ ("\x7b\x22is_debugging\x22: false\x7d" : String).data
        ++ fenceEnd)) = true := by
  decide

/-- Claim C9 (amended): the cleaning of line 99 recovers the payload
exactly for the specific wrapping the code strips — the prefix marker
"```json" and/or the suffix marker "```", possibly with surrounding
whitespace — for every payload that is itself trimmed and not fence-like;
the unwrapped payload is left unchanged, so wrapped and unwrapped responses
parse to the same Verdict.  A plain "```" opening fence is not stripped
(see the counterexample). -/
theorem c9_fence_stripping (p ws1 ws2 : List Char)
    (hfront : p.dropWhile Char.isWhitespace = p)
    (hback : p.reverse.dropWhile Char.isWhitespace = p.reverse)
    (hpre : fenceJson.isPrefixOf p = false)
    (hpre2 : fenceJson.isPrefixOf (p ++ fenceEnd) = false)
    (hsuf : fenceEnd.isSuffixOf p = false)
    (hws1 : ∀ c ∈ ws1, c.isWhitespace = true)
    (hws2 : ∀ c ∈ ws2, c.isWhitespace = true) :
    cleanResponse p = p
    ∧ cleanResponse (fenceJson ++ p ++ fenceEnd) = p
    ∧ cleanResponse (ws1 ++ (fenceJson ++ p ++ fenceEnd) ++ ws2) = p
    ∧ cleanResponse (fenceJson ++ p) = p
    ∧ cleanResponse (p ++ fenceEnd) = p := by
  have hcore1 : (fenceJson ++ p ++ fenceEnd).dropWhile Char.isWhitespace
      = fenceJson ++ p ++ fenceEnd := by
    rw [List.append_assoc]
    exact dropWhile_eq_self_append _ _ _ (by decide) (by decide)
  have hcore2 : (fenceJson ++ p ++ fenceEnd).reverse.dropWhile
      Char.isWhitespace = (fenceJson ++ p ++ fenceEnd).reverse := by
    rw [show (fenceJson ++ p ++ fenceEnd).reverse
      = fenceEnd.reverse ++ (p.reverse ++ fenceJson.reverse) from by simp]
    exact dropWhile_eq_self_append _ _ _ (by decide) (by decide)
  have htail : pyRemoveSuf fenceEnd
      (pyRemovePre fenceJson (fenceJson ++ p ++ fenceEnd)) = p := by
    rw [List.append_assoc, pyRemovePre_append, pyRemoveSuf_append]
  refine ⟨?_, ?_, ?_, ?_, ?_⟩
  · unfold cleanResponse
    rw [pyStrip_eq_self_of_ends _ hfront hback, pyRemovePre_skip _ _ hpre,
      pyRemoveSuf_skip _ _ hsuf]
  · unfold cleanResponse
    rw [pyStrip_eq_self_of_ends _ hcore1 hcore2]
    exact htail
  · unfold cleanResponse
    have hcne : fenceJson ++ p ++ fenceEnd ≠ [] := by
      intro hh
      have hlen := congrArg List.length hh
      rw [List.length_append, List.length_append] at hlen
      have h7 : fenceJson.length = 7 := by decide
      have h3 : fenceEnd.length = 3 := by decide
      rw [h7, h3] at hlen
      simp at hlen
    rw [pyStrip_ws _ ws1 ws2 hcne hcore1 hcore2 hws1 hws2]
    exact htail
  · by_cases hp : p = []
    · subst hp
      rw [List.append_nil]
      decide
    · have hrne : p.reverse ≠ [] := by
        intro hh
        exact hp (by simpa using congrArg List.reverse hh)
      have s1 : (fenceJson ++ p).dropWhile Char.isWhitespace
          = fenceJson ++ p :=
        dropWhile_eq_self_append _ _ _ (by decide) (by decide)
      have s2 : (fenceJson ++ p).reverse.dropWhile Char.isWhitespace
          = (fenceJson ++ p).reverse := by
        rw [List.reverse_append]
        exact dropWhile_eq_self_append _ _ _ hback hrne
      unfold cleanResponse
      rw [pyStrip_eq_self_of_ends _ s1 s2, pyRemovePre_append,
        pyRemoveSuf_skip _ _ hsuf]
  · by_cases hp : p = []
    · subst hp
      rw [List.nil_append]
      decide
    · have s1 : (p ++ fenceEnd).dropWhile Char.isWhitespace
          = p ++ fenceEnd :=
        dropWhile_eq_self_append _ _ _ hfront hp
      have s2 : (p ++ fenceEnd).reverse.dropWhile Char.isWhitespace
          = (p ++ fenceEnd).reverse := by
        rw [List.reverse_append]
        exact dropWhile_eq_self_append _ _ _ (by decide) (by decide)
      unfold cleanResponse
      rw [pyStrip_eq_self_of_ends _ s1 s2, pyRemovePre_skip _ _ hpre2,
        pyRemoveSuf_append]

theorem c9_fence_stripping_witness :
    cleanResponse (("\x7b\x7d" : String).data) = ("\x7b\x7d" : String).data
    ∧ cleanResponse (fenceJson ++ ("\x7b\x7d" : String).data ++ fenceEnd)
        = ("\x7b\x7d" : String).data
    ∧ cleanResponse ((" " : String).data
          ++ (fenceJson ++ ("\x7b\x7d" : String).data ++ fenceEnd)
          ++ ("\n" : String).data)
        = ("\x7b\x7d" : String).data
    ∧ cleanResponse (fenceJson ++ ("\x7b\x7d" : String).data)
        = ("\x7b\x7d" : String).data
    ∧ cleanResponse (("\x7b\x7d" : String).data ++ fenceEnd)
        = ("\x7b\x7d" : String).data :=
  c9_fence_stripping (("\x7b\x7d" : String).data) ((" " : String).data)
    (("\n" : String).data) (by decide) (by decide) (by decide) (by decide)
    (by decide) (by decide) (by decide)

/-- Claim C10: the state machine never consults the verdict's
`is_debugging` boolean — two parsed verdicts that agree on every other
field produce identical updated states for every starting state and chunk.
Session opening and closing are driven solely by the (non-)emptiness of the
normalized debugging-id set. -/
theorem c10_is_debugging_irrelevant (s : AnalysisState) (c : List Message)
    (a₁ a₂ : Analysis)
    (hsum : a₁.debugging_summary = a₂.debugging_summary)
    (hids : a₁.debugging_message_ids = a₂.debugging_message_ids)
    (hcs : a₁.chunk_summary = a₂.chunk_summary) :
    processChunk s c a₁ = processChunk s c a₂ := by
  cases a₁
  cases a₂
  dsimp only at hsum hids hcs
  subst hsum
  subst hids
  subst hcs
  rfl

theorem c10_is_debugging_irrelevant_witness :
    processChunk initState [⟨"1", "a"⟩]
      ⟨true, some ("t"), [IdItem.str ("1")], []⟩
      = processChunk initState [⟨"1", "a"⟩]
        ⟨false, some ("t"), [IdItem.str ("1")], []⟩ :=
  c10_is_debugging_irrelevant initState [⟨"1", "a"⟩]
    ⟨true, some ("t"), [IdItem.str ("1")], []⟩
    ⟨false, some ("t"), [IdItem.str ("1")], []⟩ rfl rfl rfl

/-- A full-coverage bounded run (explicit start chunk 1, no cap) reduces to
the run loop from the fresh state at chunk index 0 over all chunks. -/
theorem analyzeChatHistory_full_run (messages : List Message) (W : Nat)
    (checkpoint : Option Checkpoint)
    (classify : Nat → Except Unit (List Char))
    (loads : List Char → Option Analysis) :
    analyzeChatHistory messages W (some 1) none checkpoint classify loads
      = runLoop messages W true checkpoint.isSome classify loads
          (totalChunks messages.length W) none initState [] 0 := by
  cases checkpoint <;> rfl

/-- Claim C2: a run over the whole input that starts from the fresh state
at chunk 0 (explicit start chunk 1, no chunk cap) and completes without
error partitions the input exactly: the Messages of `main_branch` together
with all debugging-branch messages are a permutation of the input (each
input message appears exactly once), and the Messages of `main_branch` and
of every debugging branch keep the input's relative order (each is a
sublist of the input). -/
theorem c2_completed_run_partition (messages : List Message) (W : Nat)
    (checkpoint : Option Checkpoint)
    (classify : Nat → Except Unit (List Char))
    (loads : List Char → Option Analysis) (hW : 1 ≤ W)
    (hdone : (analyzeChatHistory messages W (some 1) none checkpoint
      classify loads).outcome = Outcome.completed) :
    List.Perm
      (mainMessages (analyzeChatHistory messages W (some 1) none checkpoint
          classify loads).state.main_branch
        ++ branchesJoin (analyzeChatHistory messages W (some 1) none
          checkpoint classify loads).state.debugging_branches)
      messages
    ∧ List.Sublist
        (mainMessages (analyzeChatHistory messages W (some 1) none
          checkpoint classify loads).state.main_branch)
        messages
    ∧ ∀ kv ∈ (analyzeChatHistory messages W (some 1) none checkpoint
        classify loads).state.debugging_branches,
      List.Sublist kv.2 messages := by
  rw [analyzeChatHistory_full_run] at hdone ⊢
  have htake : messages.take ((0 + totalChunks messages.length W) * W)
      = messages := by
    rw [Nat.zero_add]
    exact List.take_of_length_le (le_totalChunks_mul _ _ hW)
  have h0p : List.Perm (mainMessages initState.main_branch
      ++ branchesJoin initState.debugging_branches)
      (messages.take (0 * W)) := by
    simp [initState, mainMessages, branchesJoin]
  have hperm := runLoop_completed_perm messages W true checkpoint.isSome
    classify loads (totalChunks messages.length W) 0 none initState [] h0p
    hdone
  rw [htake] at hperm
  have hsub := runLoop_completed_sublists messages W true checkpoint.isSome
    classify loads (totalChunks messages.length W) 0 none initState []
    (by simp [initState, mainMessages]) (by simp [initState]) hdone
  rw [htake] at hsub
  exact ⟨hperm, hsub.1, hsub.2⟩

theorem c2_completed_run_partition_witness :
    List.Perm
      (mainMessages (analyzeChatHistory [⟨"1", "a"⟩, ⟨"2", "b"⟩] 1 (some 1)
          none none (fun _ => Except.ok [])
          (fun _ => some ⟨false, none, [], []⟩)).state.main_branch
        ++ branchesJoin (analyzeChatHistory [⟨"1", "a"⟩, ⟨"2", "b"⟩] 1
          (some 1) none none (fun _ => Except.ok [])
          (fun _ => some ⟨false, none, [], []⟩)).state.debugging_branches)
      [⟨"1", "a"⟩, ⟨"2", "b"⟩]
    ∧ List.Sublist
        (mainMessages (analyzeChatHistory [⟨"1", "a"⟩, ⟨"2", "b"⟩] 1
          (some 1) none none (fun _ => Except.ok [])
          (fun _ => some ⟨false, none, [], []⟩)).state.main_branch)
        [⟨"1", "a"⟩, ⟨"2", "b"⟩]
    ∧ ∀ kv ∈ (analyzeChatHistory [⟨"1", "a"⟩, ⟨"2", "b"⟩] 1 (some 1) none
        none (fun _ => Except.ok [])
        (fun _ => some ⟨false, none, [], []⟩)).state.debugging_branches,
      List.Sublist kv.2 [⟨"1", "a"⟩, ⟨"2", "b"⟩] :=
  c2_completed_run_partition [⟨"1", "a"⟩, ⟨"2", "b"⟩] 1 none
    (fun _ => Except.ok []) (fun _ => some ⟨false, none, [], []⟩)
    (by decide) (by decide)

end ChatAnalyzer
